import Mathlib

/-!
Verification of the AstroBioNavigator server's summarization pipeline.

This file gives a shallow embedding, in Lean 4, of the summarization job
pipeline of the server (the code around `extractiveSummary`, `createJob`,
`processJob`, `fetchArticleText`, `fetchArticleTextFast`,
`waitForRateLimit` and the `/api/summarize-article` and
`/api/summarize-status/:jobId` handlers), together with theorems about the
embedded definitions.

Conventions of the embedding:
* JavaScript strings are Lean `String`s; `String.length` stands for the
  JS `length` (they agree on the ASCII data used in all concrete inputs).
* `null`/absent values are `Option.none`.
* Timestamps (`Date.now()`, ISO strings produced from it) are `Nat`s.
* Network and DOM effects (HTTP fetch, Readability, cheerio selectors,
  the puppeteer render) are modelled by environment records holding the
  values the outside world would produce; the embedded functions are pure
  functions of those environments.
-/

namespace AstroBio

/-- The characters treated as whitespace by the `\s` regex class and by
`String.prototype.trim` (ASCII portion, which is all that matters for the
server's normalized output). -/
def jsWs (c : Char) : Bool :=
  c == ' ' || c == '\t' || c == '\n' || c == '\r' || c == '\x0b' || c == '\x0c'

/-- One step of `replace(/\s+/g, ' ')`: `prevWs` records whether the
previous character belonged to a whitespace run that has already emitted
its single replacement space. -/
def collapseGo : List Char → Bool → List Char
  | [], _ => []
  | c :: cs, prevWs =>
    if jsWs c then
      if prevWs then collapseGo cs true else ' ' :: collapseGo cs true
    else c :: collapseGo cs false

/-- `replace(/\s+/g, ' ')`: every maximal whitespace run becomes a single
space. -/
def collapseWs (l : List Char) : List Char := collapseGo l false

/-- Remove a trailing whitespace run. -/
def trimRight : List Char → List Char
  | [] => []
  | c :: cs =>
    let r := trimRight cs
    if r.isEmpty && jsWs c then [] else c :: r

/-- `String.prototype.trim` on character lists: drop leading and trailing
whitespace runs. -/
def trimChars (l : List Char) : List Char := trimRight (l.dropWhile jsWs)

/-- `String.prototype.trim`. -/
def jsTrim (s : String) : String := String.mk (trimChars s.data)

/-- `text.replace(/\s+/g, ' ').trim()`, the output normalization applied
by both extraction helpers. -/
def normalizeText (s : String) : String := String.mk (trimChars (collapseWs s.data))

/-- `String.prototype.startsWith`. -/
def jsStartsWith (s pre : String) : Bool := pre.data.isPrefixOf s.data

/-- The sentence terminators of the naive split: `.`, `!`, `?`. -/
def isTerm (c : Char) : Bool := c == '.' || c == '!' || c == '?'

/-- Global matching of the regex `[^.!?]+[.!?]+` as a single left-to-right
pass.  `acc` is the match being built; `inT` is true while the match is
inside its trailing terminator run, so a non-terminator character closes
the match.  Characters before any possible match start (leading
terminators) and an unterminated tail are discarded, exactly as the regex
search does. -/
def sentSplitGo : List Char → List Char → Bool → List (List Char)
  | [], acc, inT => if inT then [acc] else []
  | c :: cs, acc, inT =>
    if isTerm c then
      if acc.isEmpty then sentSplitGo cs [] false
      else sentSplitGo cs (acc ++ [c]) true
    else
      if inT then acc :: sentSplitGo cs [c] false
      else sentSplitGo cs (acc ++ [c]) false

/-- `text.match(/[^.!?]+[.!?]+/g)`, returning `[]` where JS returns
`null`. -/
def jsSentences (text : String) : List String :=
  (sentSplitGo text.data [] false).map String.mk

/-- `text.match(/[^.!?]+[.!?]+/g) || [text]`: the sentence list the
summarizer slices, falling back to the whole text when the regex finds no
match. -/
def sentencesOf (text : String) : List String :=
  match jsSentences text with
  | [] => [text]
  | ss => ss

/-- `Array.prototype.join(' ')`. -/
def joinSpace : List String → String
  | [] => ""
  | [s] => s
  | s :: t :: rest => s ++ " " ++ joinSpace (t :: rest)

/-- `extractiveSummary(text, maxSentences = 3)`: first `maxSentences`
regex sentences (the whole text when the regex finds none), each trimmed,
joined by single spaces; the empty string for falsy input. -/
def extractiveSummary (text : String) (maxSentences : Nat := 3) : String :=
  if text = "" then ""
  else joinSpace (((sentencesOf text).take maxSentences).map jsTrim)

example : extractiveSummary "A. B. C. D. E." 3 = "A. B. C." := by decide
example : extractiveSummary "Hello world" 3 = "Hello world" := by decide
example : extractiveSummary "One two. Three four! Five? Six." 3 =
    "One two. Three four! Five?" := by decide

/-! ## Job records and the in-memory job store -/

/-- The four values the `status` field takes. -/
inductive Status where
  | pending
  | processing
  | done
  | failed
  deriving DecidableEq, Repr

/-- A record in the `summarizationJobs` map. -/
structure Job where
  id : String
  status : Status
  createdAt : Nat
  updatedAt : Nat
  url : String
  fastSummary : Option String
  result : Option String
  error : Option String
  deriving DecidableEq, Repr

instance : Inhabited Job :=
  ⟨{ id := "", status := .pending, createdAt := 0, updatedAt := 0, url := "",
     fastSummary := none, result := none, error := none }⟩

/-- `createJob(payload)`: the freshly inserted record.  `id` stands for
the generated `Date.now()-random` token and `t` for `Date.now()`;
`payload.fastSummary || null` maps the empty string to `null`. -/
def createJob (url : String) (fastSummary : String) (id : String) (t : Nat) : Job :=
  { id := id
    status := .pending
    createdAt := t
    updatedAt := t
    url := url
    fastSummary := if fastSummary = "" then none else some fastSummary
    result := none
    error := none }

/-- The first mutation `processJob` performs:
`job.status = 'processing'; job.updatedAt = ...`. -/
def startProcessing (j : Job) (t : Nat) : Job :=
  { j with status := .processing, updatedAt := t }

/-- The mutation on the success path of `processJob`:
`job.result = fullResult; job.status = 'done'; job.updatedAt = ...`. -/
def finishDone (j : Job) (r : String) (t : Nat) : Job :=
  { j with result := some r, status := .done, updatedAt := t }

/-- The mutation on the catch path of `processJob`:
`job.error = ...; job.status = 'failed'; job.updatedAt = ...`. -/
def finishFailed (j : Job) (e : String) (t : Nat) : Job :=
  { j with error := some e, status := .failed, updatedAt := t }

/-- How a `processJob` run ends: either the full summary string produced
by `summarizeWithOpenRouter`, or the message of the exception caught
(always a string: `err.message || String(err)`). -/
inductive ProcessOutcome where
  | success (summary : String)
  | failure (msg : String)
  deriving DecidableEq, Repr

/-- The complete mutation history of one job.  `createJob` builds the
initial record; `processJob` — scheduled by `process.nextTick` exactly
once per job, with no other writer — first marks it `processing` and then
performs exactly one of the two terminal mutations.  The three list
entries are the successive values of the stored record, which is what
every poll of the status endpoint observes. -/
def jobStates (url fastSummary id : String) (t0 t1 t2 : Nat)
    (oc : ProcessOutcome) : List Job :=
  let j0 := createJob url fastSummary id t0
  let j1 := startProcessing j0 t1
  let j2 := match oc with
    | .success r => finishDone j1 r t2
    | .failure e => finishFailed j1 e t2
  [j0, j1, j2]

/-- Rank of a status along the pipeline; both terminal states share the
top rank. -/
def statusRank : Status → Nat
  | .pending => 0
  | .processing => 1
  | .done => 2
  | .failed => 2

/-- `done` and `failed` are the terminal states. -/
def isTerminal : Status → Bool
  | .done => true
  | .failed => true
  | _ => false

/-- The transitions the state machine allows. -/
def allowedStep : Status → Status → Prop
  | .pending, .processing => True
  | .processing, .done => True
  | .processing, .failed => True
  | _, _ => False

/-! ## The job registry (`summarizationJobs`, a `Map`) -/

/-- `Map.prototype.get`. -/
def registryGet : List (String × Job) → String → Option Job
  | [], _ => none
  | (k, v) :: rest, id => if k = id then some v else registryGet rest id

/-- `Map.prototype.set`: overwrite the binding if the key is present,
append it otherwise. -/
def registrySet : List (String × Job) → String → Job → List (String × Job)
  | [], id, j => [(id, j)]
  | (k, v) :: rest, id, j =>
    if k = id then (id, j) :: rest else (k, v) :: registrySet rest id j

/-- Response of `GET /api/summarize-status/:jobId`: HTTP status, the job
echoed back on success, the error message on failure. -/
structure StatusResponse where
  httpStatus : Nat
  job : Option Job
  errorMsg : Option String
  deriving DecidableEq, Repr

/-- The status endpoint: look the id up in `summarizationJobs`; 404 when
absent.  The handler only reads, so it returns the registry it was
given. -/
def getStatus (reg : List (String × Job)) (jobId : String) :
    StatusResponse × List (String × Job) :=
  match registryGet reg jobId with
  | none => (⟨404, none, some "Job not found"⟩, reg)
  | some j => (⟨200, some j, none⟩, reg)

/-! ## The submission endpoint (`POST /api/summarize-article`) -/

/-- A JavaScript value sitting in `req.body.url`: a string, or any other
value together with its truthiness. -/
inductive JsValue where
  | vstr (s : String)
  | vother (truthy : Bool)
  deriving DecidableEq, Repr

/-- JS truthiness of a `JsValue`. -/
def truthy : JsValue → Bool
  | .vstr s => s ≠ ""
  | .vother b => b

/-- The request body as the handler distinguishes it: falsy (`undefined`,
`null`, the empty string), a plain-text string, or a JSON object with an
optional `url` field. -/
inductive ReqBody where
  | nobody
  | rawText (s : String)
  | jsonUrl (u : Option JsValue)
  deriving DecidableEq, Repr

/-- The `let url = null; if (req.body) ...` block of the handler: a
non-empty string body contributes its trimmed value when it starts with
`http`; an object body contributes its `url` field when truthy. -/
def extractUrl : ReqBody → Option JsValue
  | .nobody => none
  | .rawText s =>
    if s = "" then none
    else
      let t := jsTrim s
      if jsStartsWith t "http" then some (.vstr t) else none
  | .jsonUrl none => none
  | .jsonUrl (some v) => if truthy v then some v else none

/-- The string part of the guard: non-empty and starting with `http`. -/
def urlGuard (u : String) : Bool := u ≠ "" && jsStartsWith u "http"

/-- The guard `!url || typeof url !== 'string' || !url.startsWith('http')`
(negated): the extracted value passes validation. -/
def validUrl : Option JsValue → Bool
  | none => false
  | some (.vstr s) => urlGuard s
  | some (.vother _) => false

/-- Outcome of one extraction attempt (`fetchArticleTextFast` /
`fetchArticleText` as awaited by the handler): the text, or the message
of the exception thrown. -/
inductive ExtractOutcome where
  | ok (text : String)
  | err (msg : String)
  deriving DecidableEq, Repr

/-- Response of `POST /api/summarize-article`: HTTP status, `success`
flag, and the payload fields. -/
structure SubmitResponse where
  httpStatus : Nat
  success : Bool
  jobId : Option String
  fastSummary : Option String
  errorMsg : Option String
  deriving DecidableEq, Repr

/-- The validation failure body of the handler. -/
def validationMsg : String :=
  "Missing or invalid \"url\" in request body. Send JSON \x7b\"url\": \"https://...\"\x7d or raw text body with the URL."

/-- The extraction failure body of the handler. -/
def extractionFailMsg : String :=
  "Could not extract sufficient text from the article."

/-- The `POST /api/summarize-article` handler.  `fastEx` and `fullEx` are
the outcomes the two extraction helpers would produce for the submitted
URL; `newId` and `t` stand for the generated job id and `Date.now()`.
Returns the response together with the registry after the handler ran
(the scheduled `processJob` has not run yet, so a created job is still
`pending`). -/
def submitHandler (body : ReqBody) (fastEx fullEx : ExtractOutcome)
    (reg : List (String × Job)) (newId : String) (t : Nat) :
    SubmitResponse × List (String × Job) :=
  match extractUrl body with
  | some (.vstr u) =>
    if urlGuard u then
      let text? : Option String := match fastEx with
        | .ok text => some text
        | .err _ => match fullEx with
          | .ok text => some text
          | .err _ => none
      match text? with
      | none => (⟨400, false, none, none, some extractionFailMsg⟩, reg)
      | some fastText =>
        let fs := extractiveSummary fastText 3
        let job := createJob u fs newId t
        (⟨200, true, some newId, some fs, none⟩, registrySet reg newId job)
    else (⟨400, false, none, none, some validationMsg⟩, reg)
  | _ => (⟨400, false, none, none, some validationMsg⟩, reg)

/-! ## The rate limiter (`waitForRateLimit`) -/

/-- `MIN_REQUEST_INTERVAL = 1000` ms. -/
def MIN_REQUEST_INTERVAL : Nat := 1000

/-- The module-level `lastRequestTime` cell. -/
structure RateLimiterState where
  lastRequestTime : Nat
  deriving DecidableEq, Repr

/-- `waitForRateLimit()` entered at clock time `now`.  When the elapsed
time since `lastRequestTime` is below the minimum interval the caller
sleeps for the difference; `lag ≥ 0` models any extra scheduler delay
`setTimeout` adds beyond the requested duration.  Returns the dispatch
time (the moment the caller proceeds past the helper, when
`lastRequestTime = Date.now()` runs) and the updated cell. -/
def waitForRateLimit (st : RateLimiterState) (now lag : Nat) :
    Nat × RateLimiterState :=
  let timeSinceLastRequest := now - st.lastRequestTime
  if timeSinceLastRequest < MIN_REQUEST_INTERVAL then
    let wake := now + (MIN_REQUEST_INTERVAL - timeSinceLastRequest) + lag
    (wake, ⟨wake⟩)
  else (now, ⟨now⟩)

/-! ## Text extraction (`fetchArticleText`, `fetchArticleTextFast`)

The network and DOM collaborators are modelled by environment records:
each field holds the value the corresponding call would produce for the
fetched page.  The embedded functions replay the source's control flow
over those values. -/

/-- JS `a || b` on strings: the empty string is falsy. -/
def jsOr (a b : String) : String := if a = "" then b else a

/-- `(article.title ? article.title + '\n\n' : '') + article.textContent`:
the detected title and a blank-line separator are prepended when the
title is truthy. -/
def titled (title body : String) : String :=
  if title = "" then body else title ++ "\n\n" ++ body

/-- One Readability attempt: `none` models `reader.parse()` returning
`null`, throwing, or a falsy `textContent`; `some (title, body)` a parse
with those fields.  The attempt is accepted when the trimmed body reaches
`thresh` characters, and then yields the normalized titled text. -/
def readabilityText (thresh : Nat) (r : Option (String × String)) : Option String :=
  match r with
  | none => none
  | some (title, body) =>
    if thresh ≤ (jsTrim body).length then some (normalizeText (titled title body))
    else none

/-- What the puppeteer render of the page would expose: the Readability
result on the rendered markup and the cheerio selector texts of the
rendered markup. -/
structure RenderedPage where
  readability : Option (String × String)
  selArticle : String
  selMain : String
  selContent : String
  bodyText : String
  deriving DecidableEq, Repr

/-- Environment of one `fetchArticleText` call: content type of the
response, Readability on the fetched markup, the rendered page when
puppeteer succeeds (`none` models a throw anywhere in the puppeteer
block), and the cheerio selector texts of the fetched markup. -/
structure FetchEnv where
  contentTypeHtml : Bool
  readability : Option (String × String)
  rendered : Option RenderedPage
  selArticle : String
  selMain : String
  selContent : String
  selMainContent : String
  selPostContent : String
  selEntryContent : String
  bodyText : String
  deriving DecidableEq, Repr

/-- The three extraction strategies of the full pipeline, in the order an
attempt of each begins. -/
inductive Strategy where
  | readabilityStatic
  | renderPass
  | selectorStatic
  deriving DecidableEq, Repr

/-- The structural-selector chain of `fetchArticleText` applied to the
*fetched* (non-rendered) markup, body-text fallback and normalization
included. -/
def selectorTextFull (env : FetchEnv) : String :=
  let text := jsOr env.selArticle (jsOr env.selMain (jsOr env.selContent
    (jsOr env.selMainContent (jsOr env.selPostContent env.selEntryContent))))
  let text := if text = "" || (jsTrim text).length < 100 then env.bodyText else text
  normalizeText text

/-- Whether the structural-selector chain on the fetched markup yields
sufficient text (the acceptance test the source applies to it). -/
def staticSelectorSufficient (env : FetchEnv) : Bool :=
  let t := selectorTextFull env
  !(t = "" || t.length < 100)

/-- The body of the puppeteer `try` block once the page rendered:
Readability on the rendered markup (threshold 100), then the rendered
selector chain (`article`, `main`, `#content`, body fallback,
acceptance at length 100). -/
def renderPassResult (pg : RenderedPage) : Option String :=
  match readabilityText 100 pg.readability with
  | some t => some t
  | none =>
    let tr := jsOr pg.selArticle (jsOr pg.selMain pg.selContent)
    let tr := if tr = "" || (jsTrim tr).length < 100 then pg.bodyText else tr
    let tr := normalizeText tr
    if tr ≠ "" && 100 ≤ tr.length then some tr else none

/-- The outcome of the whole puppeteer `try` block: `none` when puppeteer
throws before producing rendered markup or when both rendered-markup
strategies yield insufficient text. -/
def renderResult (env : FetchEnv) : Option String :=
  match env.rendered with
  | none => none
  | some pg => renderPassResult pg

/-- `fetchArticleText(url)` (the full pipeline), returning the extraction
result together with the ordered list of strategies whose attempt began.
The source's order: Readability on the fetched markup, then the puppeteer
render pass, then the structural-selector chain on the fetched markup. -/
def fetchArticleText (env : FetchEnv) : Except String String × List Strategy :=
  if env.contentTypeHtml = false then
    (.error "Only web articles (HTML) are supported for summarization.", [])
  else
    match readabilityText 200 env.readability with
    | some text => (.ok text, [.readabilityStatic])
    | none =>
      match renderResult env with
      | some text => (.ok text, [.readabilityStatic, .renderPass])
      | none =>
        let text := selectorTextFull env
        if text = "" || text.length < 100 then
          (.error "Could not extract sufficient text from the article.",
            [.readabilityStatic, .renderPass, .selectorStatic])
        else
          (.ok text, [.readabilityStatic, .renderPass, .selectorStatic])

/-- Environment of one `fetchArticleTextFast` call (no puppeteer, no
`.main-content` selector, Readability threshold 120, final acceptance at
length 120). -/
structure FastEnv where
  contentTypeHtml : Bool
  readability : Option (String × String)
  selArticle : String
  selMain : String
  selContent : String
  selPostContent : String
  selEntryContent : String
  bodyText : String
  deriving DecidableEq, Repr

/-- `fetchArticleTextFast(url)`: the lightweight synchronous pipeline. -/
def fetchArticleTextFast (env : FastEnv) : Except String String :=
  if env.contentTypeHtml = false then
    .error "Only web articles (HTML) are supported for summarization."
  else
    match readabilityText 120 env.readability with
    | some text => .ok text
    | none =>
      let text := jsOr env.selArticle (jsOr env.selMain (jsOr env.selContent
        (jsOr env.selPostContent env.selEntryContent)))
      let text := if text = "" || (jsTrim text).length < 100 then env.bodyText else text
      let text := normalizeText text
      if text = "" || text.length < 120 then
        .error "Could not extract sufficient text from the article (fast path)."
      else .ok text

/-! ## Supporting lemmas -/

theorem waitForRateLimit_cell_eq_dispatch (st : RateLimiterState) (now lag : Nat) :
    (waitForRateLimit st now lag).2.lastRequestTime = (waitForRateLimit st now lag).1 := by
  unfold waitForRateLimit
  dsimp only
  split <;> rfl

theorem waitForRateLimit_dispatch_ge (st : RateLimiterState) (now lag : Nat)
    (h : st.lastRequestTime ≤ now) :
    st.lastRequestTime + MIN_REQUEST_INTERVAL ≤ (waitForRateLimit st now lag).1 := by
  unfold waitForRateLimit MIN_REQUEST_INTERVAL at *
  dsimp only
  split <;> omega

theorem registryGet_set_self (reg : List (String × Job)) (k : String) (j : Job) :
    registryGet (registrySet reg k j) k = some j := by
  induction reg with
  | nil => simp [registrySet, registryGet]
  | cons hd rest ih =>
    obtain ⟨k', v⟩ := hd
    by_cases hk : k' = k
    · simp [registrySet, registryGet, hk]
    · simp [registrySet, registryGet, hk, ih]

theorem sentSplitGo_eq_nil_of_no_term (cs : List Char)
    (h : ∀ c ∈ cs, isTerm c = false) :
    ∀ acc : List Char, sentSplitGo cs acc false = [] := by
  induction cs with
  | nil => intro acc; rfl
  | cons c cs ih =>
    intro acc
    have hc : isTerm c = false := h c (List.mem_cons_self c cs)
    simp only [sentSplitGo, hc, Bool.false_eq_true, if_false]
    exact ih (fun x hx => h x (List.mem_cons_of_mem c hx)) (acc ++ [c])

theorem sentSplitGo_mem_term (cs : List Char) :
    ∀ (acc : List Char) (inT : Bool),
      (inT = true → ∃ c ∈ acc, isTerm c = true) →
      ∀ s ∈ sentSplitGo cs acc inT, ∃ c ∈ s, isTerm c = true := by
  induction cs with
  | nil =>
    intro acc inT hacc s hs
    unfold sentSplitGo at hs
    split at hs
    · next h => rw [List.mem_singleton] at hs; subst hs; exact hacc h
    · exact absurd hs (List.not_mem_nil s)
  | cons c cs ih =>
    intro acc inT hacc s hs
    unfold sentSplitGo at hs
    by_cases hc : isTerm c = true
    · rw [if_pos hc] at hs
      by_cases hae : acc.isEmpty = true
      · rw [if_pos hae] at hs
        exact ih [] false (by simp) s hs
      · rw [if_neg hae] at hs
        refine ih (acc ++ [c]) true (fun _ => ⟨c, ?_, hc⟩) s hs
        exact List.mem_append_right acc (List.mem_singleton.mpr rfl)
    · rw [if_neg hc] at hs
      cases inT with
      | true =>
        rw [if_pos rfl] at hs
        rcases List.mem_cons.mp hs with rfl | hs'
        · exact hacc rfl
        · exact ih [c] false (by simp) s hs'
      | false =>
        rw [if_neg (by simp)] at hs
        exact ih (acc ++ [c]) false (by simp) s hs

theorem jsSentences_mem_term (text : String) :
    ∀ s ∈ jsSentences text, ∃ c ∈ s.data, isTerm c = true := by
  intro s hs
  unfold jsSentences at hs
  rw [List.mem_map] at hs
  obtain ⟨l, hl, rfl⟩ := hs
  exact sentSplitGo_mem_term text.data [] false (by simp) l hl

theorem mem_dropWhile_of_mem (p : Char → Bool) (l : List Char) (c : Char)
    (hc : c ∈ l) (hp : p c = false) : c ∈ l.dropWhile p := by
  induction l with
  | nil => exact absurd hc (List.not_mem_nil c)
  | cons x xs ih =>
    rw [List.dropWhile_cons]
    split
    · next hx =>
      rcases List.mem_cons.mp hc with rfl | h
      · rw [hx] at hp; exact absurd hp (by simp)
      · exact ih h
    · exact hc

theorem trimRight_ne_nil (l : List Char) (c : Char) (hc : c ∈ l)
    (hw : jsWs c = false) : trimRight l ≠ [] := by
  induction l with
  | nil => exact absurd hc (List.not_mem_nil c)
  | cons x xs ih =>
    unfold trimRight
    dsimp only
    rcases List.mem_cons.mp hc with rfl | h
    · rw [hw, Bool.and_false]
      simp
    · cases htr : trimRight xs with
      | nil => exact absurd htr (ih h)
      | cons y ys => simp [htr]

theorem trimChars_ne_nil (l : List Char) (c : Char) (hc : c ∈ l)
    (hw : jsWs c = false) : trimChars l ≠ [] :=
  trimRight_ne_nil _ c (mem_dropWhile_of_mem jsWs l c hc hw) hw

theorem isTerm_not_ws (c : Char) (h : isTerm c = true) : jsWs c = false := by
  simp only [isTerm, Bool.or_eq_true, beq_iff_eq] at h
  rcases h with (h | h) | h <;> subst h <;> decide

theorem jsTrim_ne_empty (s : String) (c : Char) (hc : c ∈ s.data)
    (hw : jsWs c = false) : jsTrim s ≠ "" := by
  unfold jsTrim
  intro h
  have hdata : trimChars s.data = [] := by
    have := congrArg String.data h
    simpa using this
  exact trimChars_ne_nil s.data c hc hw hdata

theorem joinSpace_ne_empty (x : String) (xs : List String) (hx : x ≠ "") :
    joinSpace (x :: xs) ≠ "" := by
  cases xs with
  | nil => simpa [joinSpace] using hx
  | cons y ys =>
    unfold joinSpace
    intro h
    have hlen := congrArg String.length h
    rw [String.length_append, String.length_append] at hlen
    have hsp : (" " : String).length = 1 := by decide
    rw [hsp] at hlen
    simp at hlen

theorem extractiveSummary_ne_empty (text : String) (htrim : jsTrim text = text)
    (hne : text ≠ "") : extractiveSummary text 3 ≠ "" := by
  unfold extractiveSummary sentencesOf
  rw [if_neg hne]
  cases hs : jsSentences text with
  | nil => simpa [joinSpace, htrim] using hne
  | cons s rest =>
    obtain ⟨c, hcmem, hcterm⟩ :=
      jsSentences_mem_term text s (hs ▸ List.mem_cons_self s rest)
    have hts : jsTrim s ≠ "" := jsTrim_ne_empty s c hcmem (isTerm_not_ws c hcterm)
    cases rest with
    | nil => simpa [joinSpace] using hts
    | cons t rest2 => simpa using joinSpace_ne_empty (jsTrim s) _ hts

/-- No two adjacent whitespace characters. -/
def noWsPair : List Char → Bool
  | c1 :: c2 :: rest => (!(jsWs c1 && jsWs c2)) && noWsPair (c2 :: rest)
  | _ => true

/-- A character list in fully normalized form: whitespace only as single
interior spaces, none at either end. -/
def isNormalizedChars (l : List Char) : Bool :=
  noWsPair l &&
  l.all (fun c => !jsWs c || c == ' ') &&
  (match l.head? with | some c => !jsWs c | none => true) &&
  (match l.getLast? with | some c => !jsWs c | none => true)

/-- `isNormalizedChars` on a string's characters. -/
def isNormalizedStr (s : String) : Bool := isNormalizedChars s.data

theorem collapseGo_true_head (l : List Char) :
    ∀ c cs, collapseGo l true = c :: cs → jsWs c = false := by
  induction l with
  | nil => intro c cs h; simp [collapseGo] at h
  | cons x xs ih =>
    intro c cs h
    unfold collapseGo at h
    by_cases hx : jsWs x = true
    · rw [if_pos hx, if_pos rfl] at h
      exact ih c cs h
    · rw [Bool.not_eq_true] at hx
      rw [hx] at h
      simp only [Bool.false_eq_true, if_false] at h
      rw [List.cons.injEq] at h
      rw [← h.1]
      exact hx

theorem noWsPair_collapseGo (l : List Char) : ∀ b, noWsPair (collapseGo l b) = true := by
  induction l with
  | nil => intro b; rfl
  | cons x xs ih =>
    intro b
    unfold collapseGo
    by_cases hx : jsWs x = true
    · rw [if_pos hx]
      cases b with
      | true => rw [if_pos rfl]; exact ih true
      | false =>
        rw [if_neg (by simp)]
        cases h : collapseGo xs true with
        | nil => rfl
        | cons y ys =>
          have hy : jsWs y = false := collapseGo_true_head xs y ys h
          unfold noWsPair
          rw [hy, Bool.and_false, Bool.not_false, Bool.true_and, ← h]
          exact ih true
    · rw [Bool.not_eq_true] at hx
      rw [hx]
      simp only [Bool.false_eq_true, if_false]
      cases h : collapseGo xs false with
      | nil => rfl
      | cons y ys =>
        unfold noWsPair
        rw [hx, Bool.false_and, Bool.not_false, Bool.true_and, ← h]
        exact ih false

theorem collapseGo_mem_ws_space (l : List Char) :
    ∀ b, ∀ c ∈ collapseGo l b, jsWs c = true → c = ' ' := by
  induction l with
  | nil => intro b c hc; simp [collapseGo] at hc
  | cons x xs ih =>
    intro b c hc hw
    unfold collapseGo at hc
    by_cases hx : jsWs x = true
    · rw [if_pos hx] at hc
      cases b with
      | true => rw [if_pos rfl] at hc; exact ih true c hc hw
      | false =>
        rw [if_neg (by simp)] at hc
        rcases List.mem_cons.mp hc with rfl | hc'
        · rfl
        · exact ih true c hc' hw
    · rw [Bool.not_eq_true] at hx
      rw [hx] at hc
      simp only [Bool.false_eq_true, if_false] at hc
      rcases List.mem_cons.mp hc with rfl | hc'
      · rw [hw] at hx; exact absurd hx (by simp)
      · exact ih false c hc' hw

theorem noWsPair_tail (x : Char) (l : List Char)
    (h : noWsPair (x :: l) = true) : noWsPair l = true := by
  cases l with
  | nil => rfl
  | cons y ys =>
    unfold noWsPair at h
    exact (Bool.and_eq_true_iff.mp h).2

theorem noWsPair_dropWhile (p : Char → Bool) (l : List Char)
    (h : noWsPair l = true) : noWsPair (l.dropWhile p) = true := by
  induction l with
  | nil => rfl
  | cons x xs ih =>
    rw [List.dropWhile_cons]
    split
    · exact ih (noWsPair_tail x xs h)
    · exact h

theorem trimRight_eq_append (l : List Char) : ∃ rest, l = trimRight l ++ rest := by
  induction l with
  | nil => exact ⟨[], rfl⟩
  | cons x xs ih =>
    unfold trimRight
    dsimp only
    split
    · exact ⟨x :: xs, rfl⟩
    · obtain ⟨rest, hrest⟩ := ih
      exact ⟨rest, by rw [List.cons_append, ← hrest]⟩

theorem noWsPair_append_left (a b : List Char)
    (h : noWsPair (a ++ b) = true) : noWsPair a = true := by
  induction a with
  | nil => rfl
  | cons x a' ih =>
    cases a' with
    | nil => rfl
    | cons y t =>
      rw [List.cons_append, List.cons_append] at h
      unfold noWsPair at h ⊢
      obtain ⟨h1, h2⟩ := Bool.and_eq_true_iff.mp h
      rw [h1, Bool.true_and]
      exact ih (by rw [List.cons_append]; exact h2)

theorem noWsPair_trimRight (l : List Char)
    (h : noWsPair l = true) : noWsPair (trimRight l) = true := by
  obtain ⟨rest, hrest⟩ := trimRight_eq_append l
  rw [hrest] at h
  exact noWsPair_append_left _ rest h

theorem mem_trimRight (l : List Char) (c : Char) (hc : c ∈ trimRight l) : c ∈ l := by
  obtain ⟨rest, hrest⟩ := trimRight_eq_append l
  rw [hrest]
  exact List.mem_append_left rest hc

theorem mem_of_mem_dropWhile (p : Char → Bool) (l : List Char) (c : Char)
    (hc : c ∈ l.dropWhile p) : c ∈ l := by
  induction l with
  | nil => simp at hc
  | cons x xs ih =>
    rw [List.dropWhile_cons] at hc
    split at hc
    · exact List.mem_cons_of_mem x (ih hc)
    · exact hc

theorem mem_trimChars (l : List Char) (c : Char) (hc : c ∈ trimChars l) : c ∈ l :=
  mem_of_mem_dropWhile jsWs l c (mem_trimRight _ c hc)

theorem dropWhile_head_not (p : Char → Bool) (l : List Char) :
    ∀ c cs, l.dropWhile p = c :: cs → p c = false := by
  induction l with
  | nil => intro c cs h; simp at h
  | cons x xs ih =>
    intro c cs h
    rw [List.dropWhile_cons] at h
    split at h
    · exact ih c cs h
    · next hx =>
      rw [List.cons.injEq] at h
      rw [← h.1]
      exact Bool.not_eq_true _ ▸ Bool.of_not_eq_true hx

theorem trimChars_head_not_ws (l : List Char) :
    ∀ c cs, trimChars l = c :: cs → jsWs c = false := by
  intro c cs h
  unfold trimChars at h
  obtain ⟨rest, hrest⟩ := trimRight_eq_append (l.dropWhile jsWs)
  rw [h] at hrest
  exact dropWhile_head_not jsWs l c _ hrest

theorem trimRight_getLast_not_ws (l : List Char) :
    ∀ c, (trimRight l).getLast? = some c → jsWs c = false := by
  induction l with
  | nil => intro c h; simp [trimRight] at h
  | cons x xs ih =>
    intro c h
    unfold trimRight at h
    dsimp only at h
    split at h
    · simp at h
    · next hcond =>
      cases h2 : trimRight xs with
      | nil =>
        rw [h2] at h hcond
        simp only [List.getLast?_singleton, Option.some.injEq] at h
        subst h
        simp only [List.isEmpty_nil, Bool.true_and] at hcond
        exact Bool.not_eq_true _ ▸ Bool.of_not_eq_true hcond
      | cons y ys =>
        rw [h2] at h
        rw [List.getLast?_cons_cons] at h
        exact ih c (h2 ▸ h)

/-- The full normalization fact: collapsing whitespace runs and trimming
yields a list with whitespace only as single interior spaces. -/
theorem isNormalizedChars_normalize (l : List Char) :
    isNormalizedChars (trimChars (collapseWs l)) = true := by
  unfold isNormalizedChars
  have hpair : noWsPair (trimChars (collapseWs l)) = true := by
    unfold trimChars
    exact noWsPair_trimRight _ (noWsPair_dropWhile jsWs _ (noWsPair_collapseGo l false))
  have hall : (trimChars (collapseWs l)).all (fun c => !jsWs c || c == ' ') = true := by
    rw [List.all_eq_true]
    intro c hc
    by_cases hw : jsWs c = true
    · have := collapseGo_mem_ws_space l false c (mem_trimChars _ c hc) hw
      simp [this]
    · simp [Bool.not_eq_true _ ▸ hw]
  have hhead : (match (trimChars (collapseWs l)).head? with
      | some c => !jsWs c | none => true) = true := by
    cases hh : trimChars (collapseWs l) with
    | nil => rfl
    | cons c cs =>
      simp only [List.head?_cons]
      rw [trimChars_head_not_ws (collapseWs l) c cs hh]
      rfl
  have hlast : (match (trimChars (collapseWs l)).getLast? with
      | some c => !jsWs c | none => true) = true := by
    cases hl : (trimChars (collapseWs l)).getLast? with
    | none => rfl
    | some c =>
      have hws : jsWs c = false := by
        unfold trimChars at hl
        exact trimRight_getLast_not_ws _ c hl
      show (!jsWs c) = true
      rw [hws]
      rfl
  rw [hpair, hall, hhead, hlast]
  rfl

/-- The preview as the claim words it: the first 3 sentences of the text
under the naive terminator split, each trimmed, joined by single
spaces. -/
def specFirstThreeSentences (text : String) : String :=
  joinSpace (((jsSentences text).take 3).map jsTrim)

/-! ## Claims -/

/-- C8: for two sequential calls that each pass through `waitForRateLimit`
(the second entering no earlier than the first's dispatch), the gap
between their dispatch times is at least `MIN_REQUEST_INTERVAL`. -/
theorem rate_limiter_min_gap (st0 : RateLimiterState) (n1 lag1 n2 lag2 : Nat)
    (hseq : (waitForRateLimit st0 n1 lag1).1 ≤ n2) :
    (waitForRateLimit st0 n1 lag1).1 + MIN_REQUEST_INTERVAL ≤
      (waitForRateLimit (waitForRateLimit st0 n1 lag1).2 n2 lag2).1 := by
  have hcell := waitForRateLimit_cell_eq_dispatch st0 n1 lag1
  have := waitForRateLimit_dispatch_ge (waitForRateLimit st0 n1 lag1).2 n2 lag2
    (by rw [hcell]; exact hseq)
  rw [hcell] at this
  exact this

/-- Witness for C8 at concrete inputs. -/
theorem rate_limiter_min_gap_witness :
    (waitForRateLimit ⟨0⟩ 5000 0).1 ≤ 5100 ∧
    (waitForRateLimit ⟨0⟩ 5000 0).1 + MIN_REQUEST_INTERVAL ≤
      (waitForRateLimit (waitForRateLimit ⟨0⟩ 5000 0).2 5100 7).1 :=
  ⟨by decide, rate_limiter_min_gap ⟨0⟩ 5000 0 5100 7 (by decide)⟩

/-- C10: the status endpoint is read-only — it hands back the registry it
was given, whether or not the id is found — and the two writing
operations (`createJob`'s insert and `processJob`'s in-place update,
both `registrySet` at the job's own id) leave every other id's binding
unchanged. -/
theorem getStatus_readonly_frame :
    (∀ (reg : List (String × Job)) (jobId : String), (getStatus reg jobId).2 = reg) ∧
    (∀ (reg : List (String × Job)) (id : String) (j : Job) (k : String),
      k ≠ id → registryGet (registrySet reg id j) k = registryGet reg k) := by
  constructor
  · intro reg jobId
    unfold getStatus
    split <;> rfl
  · intro reg id j k hk
    induction reg with
    | nil =>
      simp only [registrySet, registryGet]
      rw [if_neg (fun h => hk h.symm)]
    | cons hd rest ih =>
      obtain ⟨k', v⟩ := hd
      by_cases h1 : k' = id
      · subst h1
        simp only [registrySet, if_pos rfl, registryGet]
        rw [if_neg (fun h => hk h.symm), if_neg (fun h => hk h.symm)]
      · simp only [registrySet, if_neg h1, registryGet]
        split
        · rfl
        · exact ih

/-- Witness for C10 at concrete inputs. -/
theorem getStatus_readonly_frame_witness :
    (getStatus [] "j1").2 = ([] : List (String × Job)) ∧
    registryGet (registrySet [] "a" default) "b" = registryGet [] "b" :=
  ⟨getStatus_readonly_frame.1 [] "j1",
   getStatus_readonly_frame.2 [] "a" default "b" (by decide)⟩

/-- C1: a job's stored record moves only along
`pending → processing → done` or `pending → processing → failed`
(adjacent states of its mutation history are related by `allowedStep`),
the status rank never decreases, and once a state of the history is
terminal every later state is the identical record — so once a poll
observes `done` or `failed`, all subsequent polls of the id see the same
status, `result` and `error`. -/
theorem job_status_monotonic (url fs id : String) (t0 t1 t2 : Nat)
    (oc : ProcessOutcome) (i j : Nat) (hj : j < 3) (hij : i ≤ j) :
    allowedStep ((jobStates url fs id t0 t1 t2 oc).getD 0 default).status
        ((jobStates url fs id t0 t1 t2 oc).getD 1 default).status ∧
    allowedStep ((jobStates url fs id t0 t1 t2 oc).getD 1 default).status
        ((jobStates url fs id t0 t1 t2 oc).getD 2 default).status ∧
    statusRank ((jobStates url fs id t0 t1 t2 oc).getD i default).status ≤
      statusRank ((jobStates url fs id t0 t1 t2 oc).getD j default).status ∧
    (isTerminal ((jobStates url fs id t0 t1 t2 oc).getD i default).status = true →
      (jobStates url fs id t0 t1 t2 oc).getD j default =
        (jobStates url fs id t0 t1 t2 oc).getD i default) := by
  interval_cases j <;> interval_cases i <;> cases oc <;>
    simp [jobStates, createJob, startProcessing, finishDone, finishFailed,
      statusRank, isTerminal, allowedStep]

/-- Witness for C1 at concrete inputs. -/
theorem job_status_monotonic_witness :
    (1 : Nat) ≤ 2 ∧
    (statusRank ((jobStates "u" "s" "id" 0 1 2 (.success "r")).getD 1 default).status ≤
      statusRank ((jobStates "u" "s" "id" 0 1 2 (.success "r")).getD 2 default).status) :=
  ⟨by decide,
    (job_status_monotonic "u" "s" "id" 0 1 2 (.success "r") 1 2 (by decide) (by decide)).2.2.1⟩

/-- C2: along a job's mutation history, `done` implies a non-null
`result` and null `error`, `failed` implies a non-null `error` and null
`result`, and `pending`/`processing` imply both null. -/
theorem job_result_error_discipline (url fs id : String) (t0 t1 t2 : Nat)
    (oc : ProcessOutcome) (j : Job)
    (hj : j ∈ jobStates url fs id t0 t1 t2 oc) :
    (j.status = .done → j.result ≠ none ∧ j.error = none) ∧
    (j.status = .failed → j.error ≠ none ∧ j.result = none) ∧
    (j.status = .pending ∨ j.status = .processing → j.result = none ∧ j.error = none) := by
  cases oc <;>
    simp only [jobStates, List.mem_cons, List.mem_singleton, List.not_mem_nil, or_false] at hj <;>
    rcases hj with h | h | h <;> subst h <;>
    simp [createJob, startProcessing, finishDone, finishFailed]

/-- Witness for C2 at concrete inputs. -/
theorem job_result_error_discipline_witness :
    (startProcessing (createJob "u" "s" "id" 0) 1) ∈ jobStates "u" "s" "id" 0 1 2 (.failure "boom") ∧
    ((startProcessing (createJob "u" "s" "id" 0) 1).status = .pending ∨
        (startProcessing (createJob "u" "s" "id" 0) 1).status = .processing →
      (startProcessing (createJob "u" "s" "id" 0) 1).result = none ∧
        (startProcessing (createJob "u" "s" "id" 0) 1).error = none) :=
  ⟨by decide,
    (job_result_error_discipline "u" "s" "id" 0 1 2 (.failure "boom")
      (startProcessing (createJob "u" "s" "id" 0) 1) (by decide)).2.2⟩

/-- C6: when the extracted `url` value fails the handler's validation
guard (absent, not a string, empty, or not starting with `http`), the
submission returns the 400 validation error and the job registry is
unchanged. -/
theorem submit_validation_rejects (body : ReqBody) (fastEx fullEx : ExtractOutcome)
    (reg : List (String × Job)) (newId : String) (t : Nat)
    (h : validUrl (extractUrl body) = false) :
    (submitHandler body fastEx fullEx reg newId t).1 =
        ⟨400, false, none, none, some validationMsg⟩ ∧
    (submitHandler body fastEx fullEx reg newId t).2 = reg := by
  cases hE : extractUrl body with
  | none => simp [submitHandler, hE]
  | some v =>
    cases v with
    | vstr u =>
      rw [hE] at h
      simp only [validUrl] at h
      simp [submitHandler, hE, h]
    | vother b => simp [submitHandler, hE]

/-- Witness for C6: submitting the raw string `"not-a-url"`. -/
theorem submit_validation_rejects_witness :
    validUrl (extractUrl (.rawText "not-a-url")) = false ∧
    ((submitHandler (.rawText "not-a-url") (.err "e1") (.err "e2") [] "id0" 0).1 =
        ⟨400, false, none, none, some validationMsg⟩ ∧
      (submitHandler (.rawText "not-a-url") (.err "e1") (.err "e2") [] "id0" 0).2 = []) :=
  ⟨by decide,
    submit_validation_rejects (.rawText "not-a-url") (.err "e1") (.err "e2") [] "id0" 0 (by decide)⟩

/-- C3: when the URL validates but the fast extraction and the full
synchronous fallback extraction both fail, the submission returns the 400
extraction error, no job id, and the registry is unchanged. -/
theorem submit_no_job_on_double_extraction_failure (body : ReqBody) (m1 m2 : String)
    (reg : List (String × Job)) (newId : String) (t : Nat)
    (hv : validUrl (extractUrl body) = true) :
    (submitHandler body (.err m1) (.err m2) reg newId t).1 =
        ⟨400, false, none, none, some extractionFailMsg⟩ ∧
    (submitHandler body (.err m1) (.err m2) reg newId t).2 = reg := by
  cases hE : extractUrl body with
  | none => rw [hE] at hv; simp [validUrl] at hv
  | some v =>
    cases v with
    | vstr u =>
      rw [hE] at hv
      simp only [validUrl] at hv
      simp [submitHandler, hE, hv]
    | vother b => rw [hE] at hv; simp [validUrl] at hv

/-- Witness for C3 at concrete inputs. -/
theorem submit_no_job_on_double_extraction_failure_witness :
    validUrl (extractUrl (.jsonUrl (some (.vstr "https://example.com/a")))) = true ∧
    ((submitHandler (.jsonUrl (some (.vstr "https://example.com/a")))
          (.err "fast failed") (.err "full failed") [] "id0" 0).1 =
        ⟨400, false, none, none, some extractionFailMsg⟩ ∧
      (submitHandler (.jsonUrl (some (.vstr "https://example.com/a")))
          (.err "fast failed") (.err "full failed") [] "id0" 0).2 = []) :=
  ⟨by decide,
    submit_no_job_on_double_extraction_failure (.jsonUrl (some (.vstr "https://example.com/a")))
      "fast failed" "full failed" [] "id0" 0 (by decide)⟩

/-- C9: on a non-empty text containing none of `.`, `!`, `?`, the regex
finds no sentence, so `extractiveSummary` falls back to `[text]` and
returns the entire trimmed input — not an empty or 3-sentence-bounded
string. -/
theorem extractive_summary_no_terminators (text : String) (hne : text ≠ "")
    (hterm : ∀ c ∈ text.data, isTerm c = false) :
    extractiveSummary text 3 = jsTrim text := by
  have hsent : jsSentences text = [] := by
    unfold jsSentences
    rw [sentSplitGo_eq_nil_of_no_term text.data hterm []]
    rfl
  unfold extractiveSummary sentencesOf
  rw [if_neg hne, hsent]
  rfl

/-- Witness for C9 at a concrete terminator-free text. -/
theorem extractive_summary_no_terminators_witness :
    ("hello world no terminators here" : String) ≠ "" ∧
    extractiveSummary "hello world no terminators here" 3 =
      jsTrim "hello world no terminators here" :=
  ⟨by decide,
    extractive_summary_no_terminators "hello world no terminators here"
      (by decide) (by decide)⟩

/-- C5: on a submission whose fast extraction succeeds with `text` (which
extraction guarantees is trimmed and non-empty), the handler returns
`extractiveSummary text 3` as `fastSummary` and stores it on the created
job; the value is the first at most 3 sentences of the naive terminator
split, each trimmed, joined by single spaces, and every split sentence is
non-empty and contains a terminator. -/
theorem fast_preview_first_three_sentences
    (body : ReqBody) (u : String) (fullEx : ExtractOutcome)
    (reg : List (String × Job)) (newId : String) (t : Nat) (text : String)
    (hE : extractUrl body = some (.vstr u)) (hv : urlGuard u = true)
    (htrim : jsTrim text = text) (hne : text ≠ "") :
    (submitHandler body (.ok text) fullEx reg newId t).1.fastSummary =
        some (extractiveSummary text 3) ∧
    registryGet (submitHandler body (.ok text) fullEx reg newId t).2 newId =
        some (createJob u (extractiveSummary text 3) newId t) ∧
    (createJob u (extractiveSummary text 3) newId t).fastSummary =
        some (extractiveSummary text 3) ∧
    (jsSentences text ≠ [] → extractiveSummary text 3 = specFirstThreeSentences text) ∧
    ((sentencesOf text).take 3).length ≤ 3 ∧
    (∀ s ∈ jsSentences text, s.data ≠ [] ∧ ∃ c ∈ s.data, isTerm c = true) := by
  refine ⟨?_, ?_, ?_, ?_, ?_, ?_⟩
  · simp [submitHandler, hE, hv]
  · simp [submitHandler, hE, hv, registryGet_set_self]
  · simp [createJob, extractiveSummary_ne_empty text htrim hne]
  · intro hs
    unfold extractiveSummary specFirstThreeSentences sentencesOf
    rw [if_neg hne]
    cases h : jsSentences text with
    | nil => exact absurd h hs
    | cons a l => rfl
  · rw [List.length_take]
    exact min_le_left 3 _
  · intro s hs
    obtain ⟨c, hc, hct⟩ := jsSentences_mem_term text s hs
    refine ⟨fun hnil => ?_, ⟨c, hc, hct⟩⟩
    rw [hnil] at hc
    exact absurd hc (List.not_mem_nil c)

set_option maxRecDepth 4096 in
/-- Witness for C5 at concrete inputs. -/
theorem fast_preview_first_three_sentences_witness :
    jsTrim "First one. Second one. Third one. Fourth one." =
        "First one. Second one. Third one. Fourth one." ∧
    (submitHandler (.jsonUrl (some (.vstr "https://example.org/a")))
          (.ok "First one. Second one. Third one. Fourth one.") (.err "m") [] "id0" 0).1.fastSummary =
      some (extractiveSummary "First one. Second one. Third one. Fourth one." 3) :=
  ⟨by decide,
    (fast_preview_first_three_sentences (.jsonUrl (some (.vstr "https://example.org/a")))
      "https://example.org/a" (.err "m") [] "id0" 0
      "First one. Second one. Third one. Fourth one."
      (by decide) (by decide) (by decide) (by decide)).1⟩

/-- A page whose fetched markup defeats Readability but whose `article`
selector holds 120 characters of text, with puppeteer unavailable. -/
def selectorOnlyEnv : FetchEnv :=
  { contentTypeHtml := true
    readability := none
    rendered := none
    selArticle := String.mk (List.replicate 120 'a')
    selMain := ""
    selContent := ""
    selMainContent := ""
    selPostContent := ""
    selEntryContent := ""
    bodyText := "" }

set_option maxRecDepth 8192 in
/-- C4 counterexample: it is not the case that the rendering pass is
attempted only when every static-markup strategy has failed.  On
`selectorOnlyEnv` the structural-selector chain on the fetched markup
yields sufficient text, yet the render pass is attempted (and before the
selector chain, whose attempt the source places last). -/
theorem fetch_render_before_selectors_counterexample :
    ¬ (∀ env : FetchEnv, Strategy.renderPass ∈ (fetchArticleText env).2 →
        staticSelectorSufficient env = false) :=
  fun h => absurd (h selectorOnlyEnv (by decide)) (by decide)

/-- C4 amended: the render pass is attempted exactly when the response is
markup and the Readability heuristic on the fetched markup yields
insufficient text; the structural-selector chain on the fetched markup is
attempted only after the render pass has also failed — the render comes
before the static selector chain, not after it. -/
theorem fetch_strategy_order_amended (env : FetchEnv) :
    (Strategy.renderPass ∈ (fetchArticleText env).2 ↔
      env.contentTypeHtml = true ∧ readabilityText 200 env.readability = none) ∧
    (Strategy.selectorStatic ∈ (fetchArticleText env).2 ↔
      env.contentTypeHtml = true ∧ readabilityText 200 env.readability = none ∧
        renderResult env = none) ∧
    ((fetchArticleText env).2 = [] ∨
      (fetchArticleText env).2 = [.readabilityStatic] ∨
      (fetchArticleText env).2 = [.readabilityStatic, .renderPass] ∨
      (fetchArticleText env).2 = [.readabilityStatic, .renderPass, .selectorStatic]) := by
  by_cases hct : env.contentTypeHtml = false
  · simp [fetchArticleText, hct]
  · rw [Bool.not_eq_false] at hct
    cases hr : readabilityText 200 env.readability with
    | some t => simp [fetchArticleText, hct, hr]
    | none =>
      cases hren : renderResult env with
      | some t => simp [fetchArticleText, hct, hr, hren]
      | none =>
        refine ⟨by simp [fetchArticleText, hct, hr, hren]; split <;> simp,
          by simp [fetchArticleText, hct, hr, hren]; split <;> simp,
          ?_⟩
        simp only [fetchArticleText, hct, hr, hren, Bool.true_eq_false, if_false]
        split <;> simp

theorem readabilityText_shape (th : Nat) (r : Option (String × String)) (s : String)
    (h : readabilityText th r = some s) : ∃ x, s = normalizeText x := by
  cases r with
  | none => simp [readabilityText] at h
  | some p =>
    obtain ⟨title, body⟩ := p
    simp only [readabilityText] at h
    split at h
    · simp only [Option.some.injEq] at h
      exact ⟨titled title body, h.symm⟩
    · simp at h

theorem renderPassResult_shape (pg : RenderedPage) (s : String)
    (h : renderPassResult pg = some s) : ∃ x, s = normalizeText x := by
  unfold renderPassResult at h
  cases hr : readabilityText 100 pg.readability with
  | some t =>
    rw [hr] at h
    simp only [Option.some.injEq] at h
    obtain ⟨x, hx⟩ := readabilityText_shape 100 pg.readability t hr
    exact ⟨x, h ▸ hx⟩
  | none =>
    rw [hr] at h
    dsimp only at h
    split at h <;> split at h <;>
      first
        | (simp only [Option.some.injEq] at h; exact ⟨_, h.symm⟩)
        | simp at h

theorem renderResult_shape (env : FetchEnv) (s : String)
    (h : renderResult env = some s) : ∃ x, s = normalizeText x := by
  unfold renderResult at h
  cases henv : env.rendered with
  | none => rw [henv] at h; simp at h
  | some pg => rw [henv] at h; exact renderPassResult_shape pg s h

theorem isNormalizedStr_normalizeText (x : String) :
    isNormalizedStr (normalizeText x) = true := by
  show isNormalizedChars (trimChars (collapseWs x.data)) = true
  exact isNormalizedChars_normalize x.data

theorem fetchArticleText_ok_normalized (env : FetchEnv) (s : String)
    (h : (fetchArticleText env).1 = .ok s) : isNormalizedStr s = true := by
  have norm : ∃ x, s = normalizeText x := by
    unfold fetchArticleText at h
    by_cases hct : env.contentTypeHtml = false
    · rw [if_pos hct] at h
      simp at h
    · rw [if_neg hct] at h
      cases hr : readabilityText 200 env.readability with
      | some t =>
        rw [hr] at h
        simp only [Except.ok.injEq] at h
        obtain ⟨x, hx⟩ := readabilityText_shape 200 env.readability t hr
        exact ⟨x, h ▸ hx⟩
      | none =>
        rw [hr] at h
        cases hren : renderResult env with
        | some t =>
          rw [hren] at h
          simp only [Except.ok.injEq] at h
          obtain ⟨x, hx⟩ := renderResult_shape env t hren
          exact ⟨x, h ▸ hx⟩
        | none =>
          rw [hren] at h
          dsimp only at h
          split at h
          · simp at h
          · simp only [Except.ok.injEq] at h
            exact ⟨_, h.symm⟩
  obtain ⟨x, hx⟩ := norm
  rw [hx]
  exact isNormalizedStr_normalizeText x

theorem fetchArticleTextFast_ok_normalized (env : FastEnv) (s : String)
    (h : fetchArticleTextFast env = .ok s) : isNormalizedStr s = true := by
  have norm : ∃ x, s = normalizeText x := by
    unfold fetchArticleTextFast at h
    by_cases hct : env.contentTypeHtml = false
    · rw [if_pos hct] at h
      simp at h
    · rw [if_neg hct] at h
      cases hr : readabilityText 120 env.readability with
      | some t =>
        rw [hr] at h
        simp only [Except.ok.injEq] at h
        obtain ⟨x, hx⟩ := readabilityText_shape 120 env.readability t hr
        exact ⟨x, h ▸ hx⟩
      | none =>
        rw [hr] at h
        dsimp only at h
        split at h <;> split at h <;>
          first
            | (simp only [Except.ok.injEq] at h; exact ⟨_, h.symm⟩)
            | simp at h
  obtain ⟨x, hx⟩ := norm
  rw [hx]
  exact isNormalizedStr_normalizeText x

/-- A page whose fetched markup gives Readability a title `"T"` and a
200-character body. -/
def titledEnv : FetchEnv :=
  { contentTypeHtml := true
    readability := some ("T", String.mk (List.replicate 200 'a'))
    rendered := none
    selArticle := ""
    selMain := ""
    selContent := ""
    selMainContent := ""
    selPostContent := ""
    selEntryContent := ""
    bodyText := "" }

deriving instance DecidableEq for Except

set_option maxRecDepth 8192 in
/-- C7 counterexample: a successful extraction whose detected title is
`"T"` returns the title followed by a single space — normalization has
collapsed the blank-line separator — so the returned text does not begin
with the title followed by a blank-line separator. -/
theorem extraction_title_blank_line_counterexample :
    (fetchArticleText titledEnv).1 =
        .ok (String.mk ('T' :: ' ' :: List.replicate 200 'a')) ∧
    titledEnv.readability = some ("T", String.mk (List.replicate 200 'a')) ∧
    jsStartsWith (String.mk ('T' :: ' ' :: List.replicate 200 'a')) ("T" ++ "\n\n") =
      false := by
  decide

/-- C7 amended: every successful extraction output is
whitespace-collapsed and trimmed (whitespace appears only as single
interior spaces); when a title is detected, the title and a blank-line
separator are prepended to the body *before* normalization — so the
returned text equals the normalized form of
`title ++ "\n\n" ++ body`, in which the separator has become a single
space. -/
theorem extraction_normalized_title_amended :
    (∀ (env : FetchEnv) (s : String),
      (fetchArticleText env).1 = .ok s → isNormalizedStr s = true) ∧
    (∀ (env : FetchEnv) (title body : String), env.contentTypeHtml = true →
      env.readability = some (title, body) → 200 ≤ (jsTrim body).length →
      (fetchArticleText env).1 = .ok (normalizeText (titled title body))) ∧
    (∀ (env : FastEnv) (s : String),
      fetchArticleTextFast env = .ok s → isNormalizedStr s = true) ∧
    (∀ (env : FastEnv) (title body : String), env.contentTypeHtml = true →
      env.readability = some (title, body) → 120 ≤ (jsTrim body).length →
      fetchArticleTextFast env = .ok (normalizeText (titled title body))) ∧
    (∀ title body : String, title ≠ "" → titled title body = title ++ "\n\n" ++ body) := by
  refine ⟨fetchArticleText_ok_normalized, ?_, fetchArticleTextFast_ok_normalized, ?_, ?_⟩
  · intro env title body hct hr hlen
    simp [fetchArticleText, hct, hr, readabilityText, hlen]
  · intro env title body hct hr hlen
    simp [fetchArticleTextFast, hct, hr, readabilityText, hlen]
  · intro title body h
    unfold titled
    rw [if_neg h]

set_option maxRecDepth 8192 in
/-- Witness for the amended C7 at concrete inputs. -/
theorem extraction_normalized_title_amended_witness :
    titledEnv.contentTypeHtml = true ∧
    (fetchArticleText titledEnv).1 =
      .ok (normalizeText (titled "T" (String.mk (List.replicate 200 'a')))) :=
  ⟨rfl, extraction_normalized_title_amended.2.1 titledEnv "T"
    (String.mk (List.replicate 200 'a')) rfl rfl (by decide)⟩

end AstroBio
